import Mathlib

/-!
Shallow embedding of the scheduler application (src/app.py) for checking its
natural-language specification.

Modelling conventions:
* Calendar dates are modelled at day granularity as a `Date` structure that
  mirrors Python's `datetime.date` (year 1..9999, proleptic Gregorian).
  `pd.to_datetime` / `strftime` are modelled at day granularity; the
  nanosecond-timestamp range restriction of pandas (years 1678..2261) is not
  modelled, since no specified behaviour depends on it.
* DataFrame cells are `Cell`: missing (`NaN`/`NaT`/`pd.NA` collapsed to
  `Cell.na`), a string, or a date object.  A DataFrame is column-oriented
  (`RawTable`): a list of named columns plus the row count, as in pandas.
* Network effects are modelled with an explicit `Store` value describing the
  remote blob state observed by each request, and operations return the
  requests they issued, so that what was sent can be stated and proved.
* `pd.to_datetime(..., errors="coerce")` on strings is modelled as parsing of
  ISO `YYYY-MM-DD` dates (the only format this program itself ever writes);
  any other string coerces to null.
* `dateparser.parse(...).date()` (an ambient natural-language date resolver)
  is modelled as an explicit `resolve : String → Option Date` parameter.
-/

/-- English weekday names as produced by `strftime("%A")`. -/
def weekdayNames : List String :=
  ["Monday", "Tuesday", "Wednesday", "Thursday", "Friday", "Saturday", "Sunday"]

/-- Calendar date, mirroring Python's `datetime.date` (valid when
`validDate` holds; Python's type makes invalid triples unconstructible). -/
structure Date where
  year : Nat
  month : Nat
  day : Nat
deriving DecidableEq, Repr

/-- Gregorian leap-year test. -/
def isLeap (y : Nat) : Bool :=
  (y % 4 == 0 && y % 100 != 0) || y % 400 == 0

/-- Number of days in a month of a given year. -/
def daysInMonth (y m : Nat) : Nat :=
  if m == 2 then (if isLeap y then 29 else 28)
  else if m == 4 || m == 6 || m == 9 || m == 11 then 30
  else 31

/-- Validity of a `Date` triple, as enforced by Python's `datetime.date`. -/
def validDate (d : Date) : Bool :=
  1 ≤ d.year && d.year ≤ 9999 && 1 ≤ d.month && d.month ≤ 12 &&
    1 ≤ d.day && d.day ≤ daysInMonth d.year d.month

/-- Days in all years strictly before year `y` (proleptic Gregorian). -/
def daysBeforeYear (y : Nat) : Nat :=
  365 * (y - 1) + (y - 1) / 4 - (y - 1) / 100 + (y - 1) / 400

/-- Cumulative day counts before each month in a non-leap year. -/
def monthsBefore (m : Nat) : Nat :=
  [0, 31, 59, 90, 120, 151, 181, 212, 243, 273, 304, 334].getD (m - 1) 0

/-- Proleptic Gregorian ordinal of a date (0001-01-01 has ordinal 1), as in
`datetime.date.toordinal`. -/
def toOrdinal (d : Date) : Nat :=
  daysBeforeYear d.year + monthsBefore d.month +
    (if 2 < d.month && isLeap d.year then 1 else 0) + d.day

/-- English weekday name of a date, as `strftime("%A")` renders it
(0001-01-01 was a Monday). -/
def weekdayName (d : Date) : String :=
  weekdayNames.getD ((toOrdinal d + 6) % 7) ""

/-- Successor day in the Gregorian calendar. -/
def nextDay (d : Date) : Date :=
  if d.day < daysInMonth d.year d.month then ⟨d.year, d.month, d.day + 1⟩
  else if d.month < 12 then ⟨d.year, d.month + 1, 1⟩
  else ⟨d.year + 1, 1, 1⟩

/-- Model of `date + timedelta(days=n)`. -/
def addDays (d : Date) : Nat → Date
  | 0 => d
  | n + 1 => nextDay (addDays d n)

/-- Decimal digit character. -/
def digitChar (n : Nat) : Char := Char.ofNat (48 + n)

/-- Four-digit zero-padded decimal rendering (years are ≤ 9999). -/
def pad4 (n : Nat) : List Char :=
  [digitChar (n / 1000 % 10), digitChar (n / 100 % 10),
   digitChar (n / 10 % 10), digitChar (n % 10)]

/-- Two-digit zero-padded decimal rendering. -/
def pad2 (n : Nat) : List Char :=
  [digitChar (n / 10 % 10), digitChar (n % 10)]

/-- ISO rendering of a date, as Python's `str(date)` produces it. -/
def toISO (d : Date) : String :=
  String.mk (pad4 d.year ++ '-' :: (pad2 d.month ++ '-' :: pad2 d.day))

/-- Split a character list at every occurrence of a separator character. -/
def splitCharList (sep : Char) : List Char → List (List Char)
  | [] => [[]]
  | c :: rest =>
    match splitCharList sep rest with
    | [] => [[c]]
    | h :: t => if c = sep then [] :: h :: t else (c :: h) :: t

/-- Numeric value of a nonempty all-digit character list. -/
def digitsVal (cs : List Char) : Option Nat :=
  if cs ≠ [] ∧ cs.all Char.isDigit then
    some (cs.foldl (fun a c => a * 10 + (c.toNat - 48)) 0)
  else none

/-- Model of `pd.to_datetime(s, errors="coerce").date` on a string cell:
parses an ISO `YYYY-MM-DD` date (the only date format this program writes);
anything unparable or invalid coerces to null. -/
def parseISO (s : String) : Option Date :=
  match splitCharList '-' s.data with
  | [ys, ms, ds] =>
    match digitsVal ys, digitsVal ms, digitsVal ds with
    | some y, some m, some d =>
      if validDate ⟨y, m, d⟩ then some ⟨y, m, d⟩ else none
    | _, _, _ => none
  | _ => none

/-- DataFrame cell: missing (NaN/NaT/pd.NA), a string, or a date object. -/
inductive Cell where
  | na
  | str (s : String)
  | date (d : Date)
deriving DecidableEq, Repr

/-- Model of `pd.to_datetime(cell, errors="coerce")` followed by `.dt.date`,
applied to one cell of a string/date column. -/
def parseDateCell : Cell → Option Date
  | Cell.na => none
  | Cell.str s => parseISO s
  | Cell.date d => some d

/-- Date-column cell written back after parsing (NaT for null). -/
def dateCellOf : Option Date → Cell
  | none => Cell.na
  | some d => Cell.date d

/-- Weekday-column cell recomputed from a parsed date

(`pd.to_datetime(dates).dt.strftime("%A")`, null for NaT). -/
def weekdayCellOf : Option Date → Cell
  | none => Cell.na
  | some d => Cell.str (weekdayName d)

/-- Column-oriented DataFrame: named columns (each a list of cells, one per
row) together with the row count. -/
structure RawTable where
  cols : List (String × List Cell)
  nrows : Nat
deriving DecidableEq, Repr

/-- The canonical column names, in canonical order (`COLUMNS` in app.py). -/
def COLUMNS : List String := ["Date", "Weekday", "Name", "Activity", "Time"]

/-- The empty canonical DataFrame `pd.DataFrame(columns=COLUMNS)`. -/
def emptyCanonicalDf : RawTable :=
  ⟨COLUMNS.map (fun c => (c, [])), 0⟩

/-- Case-insensitive prefix test on character lists (pattern given in
lowercase), used to model `df.columns.str.lower().str.contains("^unnamed")`. -/
def startsWithCI : List Char → List Char → Bool
  | [], _ => true
  | _ :: _, [] => false
  | p :: ps, c :: cs => (c.toLower = p) && startsWithCI ps cs

/-- Whether a column name matches the index-artifact pattern: its lowercased
form starts with "unnamed". -/
def isUnnamedCol (s : String) : Bool := startsWithCI "unnamed".data s.data

/-- Columns surviving the index-artifact drop
(`df.loc[:, ~df.columns.str.lower().str.contains("^unnamed")]`). -/
def keptCols (df : RawTable) : List (String × List Cell) :=
  df.cols.filter (fun p => !isUnnamedCol p.1)

/-- Column selection after the unnamed-drop and the `df[col] = pd.NA`
insertion of missing canonical columns: an absent column reads as a
null-filled column of the frame's length. -/
def getColOr (df : RawTable) (c : String) : List Cell :=
  match (keptCols df).find? (fun p => p.1 == c) with
  | some p => p.2
  | none => List.replicate df.nrows Cell.na

/-- Parsed Date column of a frame (`pd.to_datetime(df["Date"], coerce)`). -/
def sanitizedDates (df : RawTable) : List (Option Date) :=
  (getColOr df "Date").map parseDateCell

/-- Model of `sanitize_remote_df` (app.py lines 62-81): drop columns whose
lowercased name starts with "unnamed", insert any missing canonical column
filled with nulls, select the canonical columns in canonical order, parse the
Date column (invalid cells coerce to null), and recompute Weekday from the
parsed dates.  A `None` input yields the empty canonical frame. -/
def sanitize_remote_df (odf : Option RawTable) : RawTable :=
  match odf with
  | none => emptyCanonicalDf
  | some df =>
    ⟨[("Date", (sanitizedDates df).map dateCellOf),
      ("Weekday", (sanitizedDates df).map weekdayCellOf),
      ("Name", getColOr df "Name"),
      ("Activity", getColOr df "Activity"),
      ("Time", getColOr df "Time")], df.nrows⟩

/-- Cells of a named column of a DataFrame (empty when absent). -/
def colOf (name : String) (df : RawTable) : List Cell :=
  match df.cols.find? (fun p => p.1 == name) with
  | some p => p.2
  | none => []

/-- Whether csv QUOTE_MINIMAL must quote a field (it contains the delimiter,
the quote character, or a line-terminator character). -/
def needsQuote (f : List Char) : Bool :=
  f.any (fun c => c = ',' || c = '"' || c = '\n' || c = '\r')

/-- Double every quote character (csv doublequote escaping). -/
def escQ : List Char → List Char
  | [] => []
  | c :: rest => if c = '"' then '"' :: '"' :: escQ rest else c :: escQ rest

/-- Render one field with minimal quoting, as `to_csv` does. -/
def renderFieldChars (f : List Char) : List Char :=
  if needsQuote f then '"' :: (escQ f ++ ['"']) else f

/-- Join rendered fields of one record with commas. -/
def renderRowChars : List (List Char) → List Char
  | [] => []
  | [f] => renderFieldChars f
  | f :: rest => renderFieldChars f ++ ',' :: renderRowChars rest

/-- Render records as CSV text, one record per `\n`-terminated line. -/
def renderTableChars (rows : List (List (List Char))) : List Char :=
  (rows.map (fun r => renderRowChars r ++ ['\n'])).flatten

/-- Split a character list at top-level (outside quotes) occurrences of a
delimiter, tracking csv quote state. -/
def splitTopAux (d : Char) : List Char → Bool → List Char → List (List Char)
  | [], _, acc => [acc.reverse]
  | c :: rest, inQ, acc =>
    if c = d ∧ inQ = false then acc.reverse :: splitTopAux d rest false []
    else if c = '"' then splitTopAux d rest (!inQ) (c :: acc)
    else splitTopAux d rest inQ (c :: acc)

/-- Split at top-level delimiter occurrences, starting outside quotes. -/
def splitTop (d : Char) (s : List Char) : List (List Char) :=
  splitTopAux d s false []

/-- Strip csv quoting from the interior of a quoted field: after the opening
quote, doubled quotes are literal quotes and a single quote must close the
field exactly at its end. -/
def unquoteInner : List Char → Option (List Char)
  | [] => none
  | c :: rest =>
    if c = '"' then
      match rest with
      | [] => some []
      | '"' :: rest2 => (unquoteInner rest2).map (fun t => '"' :: t)
      | _ => none
    else (unquoteInner rest).map (fun t => c :: t)

/-- Strip csv quoting from one raw field. -/
def unquoteField : List Char → Option String
  | [] => some (String.mk [])
  | c :: rest =>
    if c = '"' then (unquoteInner rest).map String.mk
    else if (c :: rest).contains '"' then none
    else some (String.mk (c :: rest))

/-- The default `na_values` sentinels of `pd.read_csv`: field values read
back as NaN even with `dtype=str`. -/
def naValues : List String :=
  ["", "#N/A", "#N/A N/A", "#NA", "-1.#IND", "-1.#QNAN", "-NaN", "-nan",
   "1.#IND", "1.#QNAN", "<NA>", "N/A", "NA", "NULL", "NaN", "None",
   "n/a", "nan", "null"]

/-- String cell as produced by `pd.read_csv(..., dtype=str)`: the empty
field and every default NA sentinel are read as NaN. -/
def toCell (s : String) : Cell :=
  if s ∈ naValues then Cell.na else Cell.str s

/-- Model of `pd.read_csv(StringIO(raw), dtype=str)`: split into non-blank
lines (blank lines are skipped), the first line is the header, subsequent
lines are rows; a row longer than the header, a malformed quoted field, or
empty input (`EmptyDataError`) raises, modelled as `none`; short rows are
padded with NaN. -/
def parseCsvString (s : String) : Option RawTable :=
  let recs := (splitTop '\n' s.data).filter (fun r => r ≠ [])
  match recs with
  | [] => none
  | header :: dataRows =>
    match (splitTop ',' header).mapM unquoteField,
          dataRows.mapM (fun r => (splitTop ',' r).mapM unquoteField) with
    | some hfs, some rfs =>
      if rfs.all (fun r => r.length ≤ hfs.length) then
        some ⟨hfs.enum.map
                (fun ji => (ji.2, rfs.map (fun r => toCell (r.getD ji.1 "")))),
              rfs.length⟩
      else none
    | _, _ => none

/-- Rendering of one cell into a csv field by `to_csv` (before quoting):
null becomes the empty field, a date object renders as its ISO string. -/
def cellToCsvField : Cell → String
  | Cell.na => ""
  | Cell.str s => s
  | Cell.date d => toISO d

/-- The Date-column rewrite of `update_schedule_on_github` (app.py line 99):
`"" if pd.isna(d) else str(d)`. -/
def uploadDateCell : Cell → Cell
  | Cell.na => Cell.str ""
  | Cell.str s => Cell.str s
  | Cell.date d => Cell.str (toISO d)

/-- Apply the Date-column rewrite to a DataFrame. -/
def uploadTransform (df : RawTable) : RawTable :=
  ⟨df.cols.map (fun p => if p.1 == "Date" then (p.1, p.2.map uploadDateCell) else p),
   df.nrows⟩

/-- Records of a DataFrame as rendered by `to_csv(index=False)`: the header
line of column names followed by one record per row. -/
def dfRecords (df : RawTable) : List (List String) :=
  (df.cols.map Prod.fst) ::
    (List.range df.nrows).map
      (fun i => df.cols.map (fun p => cellToCsvField (p.2.getD i Cell.na)))

/-- Model of `DataFrame.to_csv(index=False)`. -/
def dfToCsv (df : RawTable) : String :=
  String.mk (renderTableChars ((dfRecords df).map (fun r => r.map String.data)))

/-- CSV serialization used by the write path (app.py lines 98-100): rewrite
the Date column to ISO-or-empty strings, then `to_csv(index=False)`. -/
def serializeCsv (df : RawTable) : String :=
  dfToCsv (uploadTransform df)

/-- UTF-8 encoding of one scalar value. -/
def utf8EncodeChar (c : Char) : List Nat :=
  let n := c.toNat
  if n < 128 then [n]
  else if n < 2048 then [192 + n / 64, 128 + n % 64]
  else if n < 65536 then [224 + n / 4096, 128 + n / 64 % 64, 128 + n % 64]
  else [240 + n / 262144, 128 + n / 4096 % 64, 128 + n / 64 % 64, 128 + n % 64]

/-- UTF-8 encoding of a string (`str.encode("utf-8")`). -/
def utf8Encode (s : String) : List Nat :=
  (s.data.map utf8EncodeChar).flatten

/-- The base64 alphabet. -/
def b64Alphabet : List Char :=
  "ABCDEFGHIJKLMNOPQRSTUVWXYZabcdefghijklmnopqrstuvwxyz0123456789+/".data

/-- Character for a 6-bit group. -/
def b64Chr (n : Nat) : Char := b64Alphabet.getD n '?'

/-- Base64 encoding of a byte list (`base64.b64encode`). -/
def b64encodeBytes : List Nat → List Char
  | [] => []
  | [a] => [b64Chr (a / 4), b64Chr (a % 4 * 16), '=', '=']
  | [a, b] => [b64Chr (a / 4), b64Chr (a % 4 * 16 + b / 16), b64Chr (b % 16 * 4), '=']
  | a :: b :: c :: rest =>
    b64Chr (a / 4) :: b64Chr (a % 4 * 16 + b / 16) ::
      b64Chr (b % 16 * 4 + c / 64) :: b64Chr (c % 64) :: b64encodeBytes rest

/-- Transport encoding of the write path:
`base64.b64encode(content.encode("utf-8")).decode("utf-8")`. -/
def encodeContent (s : String) : String :=
  String.mk (b64encodeBytes (utf8Encode s))

/-- Index of a character in the base64 alphabet. -/
def b64Val (c : Char) : Option Nat := b64Alphabet.indexOf? c

/-- Decode base64 in groups of four characters; padding may appear only in
the final group (`binascii` rejects other shapes). -/
def b64decodeGroups : List Char → Option (List Nat)
  | [] => some []
  | a :: b :: c :: d :: rest =>
    match b64Val a, b64Val b with
    | some va, some vb =>
      if d = '=' then
        if rest ≠ [] then none
        else if c = '=' then some [va * 4 + vb / 16]
        else
          match b64Val c with
          | some vc => some [va * 4 + vb / 16, vb % 16 * 16 + vc / 4]
          | none => none
      else
        match b64Val c, b64Val d with
        | some vc, some vd =>
          (b64decodeGroups rest).map
            (fun t => (va * 4 + vb / 16) :: (vb % 16 * 16 + vc / 4) :: (vc % 4 * 64 + vd) :: t)
        | _, _ => none
    | _, _ => none
  | _ => none

/-- Model of `base64.b64decode` on a string: characters outside the alphabet
and padding are discarded (validate=False), then the remainder must be a
whole number of four-character groups. -/
def b64decodeBytes (s : String) : Option (List Nat) :=
  b64decodeGroups (s.data.filter (fun c => c ∈ b64Alphabet || c = '='))

/-- Whether a byte is a UTF-8 continuation byte. -/
def isCont (b : Nat) : Bool := 128 ≤ b && b ≤ 191

/-- Strict UTF-8 decoding of a byte list (`bytes.decode("utf-8")`);
malformed input raises, modelled as `none`. -/
def utf8DecodeList : List Nat → Option (List Char)
  | [] => some []
  | b :: rest =>
    if b < 128 then (utf8DecodeList rest).map (fun t => Char.ofNat b :: t)
    else if 194 ≤ b && b ≤ 223 then
      match rest with
      | b2 :: rest2 =>
        if isCont b2 then
          (utf8DecodeList rest2).map (fun t => Char.ofNat ((b - 192) * 64 + (b2 - 128)) :: t)
        else none
      | [] => none
    else if 224 ≤ b && b ≤ 239 then
      match rest with
      | b2 :: b3 :: rest2 =>
        let cp := (b - 224) * 4096 + (b2 - 128) * 64 + (b3 - 128)
        if isCont b2 && isCont b3 && 2048 ≤ cp && !(55296 ≤ cp && cp ≤ 57343) then
          (utf8DecodeList rest2).map (fun t => Char.ofNat cp :: t)
        else none
      | _ => none
    else if 240 ≤ b && b ≤ 244 then
      match rest with
      | b2 :: b3 :: b4 :: rest2 =>
        let cp := (b - 240) * 262144 + (b2 - 128) * 4096 + (b3 - 128) * 64 + (b4 - 128)
        if isCont b2 && isCont b3 && isCont b4 && 65536 ≤ cp && cp ≤ 1114111 then
          (utf8DecodeList rest2).map (fun t => Char.ofNat cp :: t)
        else none
      | _ => none
    else none

/-- Transport decoding of the read path:
`base64.b64decode(content_b64).decode("utf-8")`; `none` models the raised
exception on undecodable input. -/
def decodeContent64 (s : String) : Option String :=
  (b64decodeBytes s).bind (fun bs => (utf8DecodeList bs).map String.mk)

/-- Remote blob state as observed by the GitHub content API during one
operation: the GET response (status, `sha` field, base64 `content` field)
and the PUT response (status, body).  Each network call in the source is
modelled against the `Store` value current at that moment. -/
structure Store where
  getStatus : Nat
  sha : Option String
  content : String
  putStatus : Nat
  putBody : String
deriving DecidableEq, Repr

/-- Python truthiness of an optional string (`if token:`): false for `None`
and for the empty string. -/
def optTruthy : Option String → Bool
  | none => false
  | some s => !s.isEmpty

/-- Model of `fetch_remote_csv_via_api` (app.py lines 17-39): on HTTP 200,
base64-decode and parse the returned content as CSV, substituting the empty
canonical frame when decoding or parsing raises, and return the frame with
the fetched `sha`; on any other status return `(None, None)`. -/
def fetch_remote_csv_via_api (_token : Option String) (store : Store) :
    Option RawTable × Option String :=
  if store.getStatus = 200 then
    let df :=
      match (decodeContent64 store.content).bind parseCsvString with
      | some t => t
      | none => emptyCanonicalDf
    (some df, store.sha)
  else (none, none)

/-- Model of `get_github_sha` (app.py lines 83-88): the `sha` field of the
GET response on HTTP 200, else `None`. -/
def get_github_sha (_token : Option String) (store : Store) : Option String :=
  if store.getStatus = 200 then store.sha else none

/-- The JSON payload of the PUT request; the `sha` key is present exactly
when the `sha` field is `some`. -/
structure PutPayload where
  message : String
  content : String
  sha : Option String
deriving DecidableEq, Repr

/-- The `(ok, status_code, response_text)` triple returned by the write. -/
structure WriteResult where
  ok : Bool
  status : Option Nat
  body : String
deriving DecidableEq, Repr

/-- Observable outcome of `update_schedule_on_github`: its return value plus
the store requests it issued (whether `get_github_sha` ran, and the PUT
payload if a PUT was sent). -/
structure WriteOutcome where
  result : WriteResult
  shaRefetched : Bool
  putRequest : Option PutPayload
deriving DecidableEq, Repr

/-- Model of `update_schedule_on_github` (app.py lines 90-110): refuse with
"Missing token" before any store request when the token is falsy; otherwise
serialize the frame (Date as ISO-or-empty), base64-encode it, re-fetch the
current sha via `get_github_sha`, attach the sha to the payload only if it
is truthy, and PUT; success iff the PUT status is 200 or 201. -/
def update_schedule_on_github (store : Store) (df : RawTable)
    (token : Option String) (message : String) : WriteOutcome :=
  if !optTruthy token then
    ⟨⟨false, none, "Missing token"⟩, false, none⟩
  else
    let csvContent := serializeCsv df
    let encoded := encodeContent csvContent
    let sha := get_github_sha token store
    let payload : PutPayload :=
      ⟨message, encoded, if optTruthy sha then sha else none⟩
    ⟨⟨store.putStatus == 200 || store.putStatus == 201,
      some store.putStatus, store.putBody⟩,
     true, some payload⟩

/-- Model of `expand_recurring_events` (app.py lines 152-162): the list of
rows (in canonical column order) appended for `range(repeat_count)`; the
date advances by `timedelta(days=i)` for "Daily", `timedelta(weeks=i)` for
"Weekly", and stays fixed otherwise, and each row's weekday is computed from
that row's own date. -/
def expand_recurring_events (date : Date) (name activity time : String)
    (recurrence : String) (repeat_count : Nat) : List (List Cell) :=
  (List.range repeat_count).map (fun i =>
    let newDate :=
      if recurrence = "Daily" then addDays date i
      else if recurrence = "Weekly" then addDays date (7 * i)
      else date
    [Cell.date newDate, Cell.str (weekdayName newDate),
     Cell.str name, Cell.str activity, Cell.str time])

/-- Python `\s` on ASCII input (whitespace class of the `re` module). -/
def isWs (c : Char) : Bool :=
  c = ' ' || c = '\t' || c = '\n' || c = '\r' || c = '\x0b' || c = '\x0c'

/-- Python `.` without DOTALL: any character except newline. -/
def isDot (c : Char) : Bool := c ≠ '\n'

/-- Case-insensitive character comparison (re.IGNORECASE). -/
def lowEq (a b : Char) : Bool := a.toLower = b.toLower

/-- Match a literal case-insensitively, returning the rest of the input. -/
def litCI : List Char → List Char → Option (List Char)
  | [], s => some s
  | _, [] => none
  | p :: ps, c :: cs => if lowEq p c then litCI ps cs else none

/-- Backtracking lazy `(p)+?`: try the shortest capture first, calling the
continuation with the capture and the rest; on failure extend the capture. -/
def lazyPlusAux (p : Char → Bool) (acc : List Char) :
    List Char → (List Char → List Char → Option α) → Option α
  | [], _ => none
  | c :: rest, k =>
    if p c then
      match k (acc ++ [c]) rest with
      | some r => some r
      | none => lazyPlusAux p (acc ++ [c]) rest k
    else none

/-- Lazy one-or-more quantifier over a character class. -/
def lazyPlus (p : Char → Bool) (s : List Char)
    (k : List Char → List Char → Option α) : Option α :=
  lazyPlusAux p [] s k

/-- Backtracking greedy `(p)+`: try the longest capture first, giving back
characters on failure. -/
def greedyPlusAux (p : Char → Bool) (acc : List Char) :
    List Char → (List Char → List Char → Option α) → Option α
  | [], k => k acc []
  | c :: rest, k =>
    if p c then
      match greedyPlusAux p (acc ++ [c]) rest k with
      | some r => some r
      | none => k acc (c :: rest)
    else k acc (c :: rest)

/-- Greedy one-or-more quantifier over a character class. -/
def greedyPlus (p : Char → Bool) (s : List Char)
    (k : List Char → List Char → Option α) : Option α :=
  match s with
  | [] => none
  | c :: rest => if p c then greedyPlusAux p [c] rest k else none

/-- Python `$` (no MULTILINE): end of input or just before a final newline. -/
def atDollar (s : List Char) : Bool := s = [] || s = ['\n']

/-- The four captures of the `parse_event` regular expression
`add\s+(.+?)\s+(?:on\s+(.+?)\s+)?for\s+(.+?)(?:\s+at\s+(.+))?$`. -/
structure ReGroups where
  g1 : List Char
  g2 : Option (List Char)
  g3 : List Char
  g4 : Option (List Char)
deriving DecidableEq, Repr

/-- Match the suffix `for\s+(.+?)(?:\s+at\s+(.+))?$` of the event pattern,
with captures 1 and 2 already taken. -/
def matchForTail (g1 : List Char) (g2 : Option (List Char)) (s : List Char) :
    Option ReGroups :=
  (litCI "for".data s).bind (fun s1 =>
    greedyPlus isWs s1 (fun _ s2 =>
      lazyPlus isDot s2 (fun g3 s3 =>
        match greedyPlus isWs s3 (fun _ s4 =>
          (litCI "at".data s4).bind (fun s5 =>
            greedyPlus isWs s5 (fun _ s6 =>
              greedyPlus isDot s6 (fun g4 s7 =>
                if atDollar s7 then some ⟨g1, g2, g3, some g4⟩ else none)))) with
        | some r => some r
        | none => if atDollar s3 then some ⟨g1, g2, g3, none⟩ else none)))

/-- Match the optional clause `on\s+(.+?)\s+` followed by the tail. -/
def matchOnClause (g1 : List Char) (s : List Char) : Option ReGroups :=
  (litCI "on".data s).bind (fun s1 =>
    greedyPlus isWs s1 (fun _ s2 =>
      lazyPlus isDot s2 (fun g2 s3 =>
        greedyPlus isWs s3 (fun _ s4 =>
          matchForTail g1 (some g2) s4))))

/-- Match the whole event pattern anchored at the current position. -/
def matchAdd (s : List Char) : Option ReGroups :=
  (litCI "add".data s).bind (fun s1 =>
    greedyPlus isWs s1 (fun _ s2 =>
      lazyPlus isDot s2 (fun g1 s3 =>
        greedyPlus isWs s3 (fun _ s4 =>
          match matchOnClause g1 s4 with
          | some r => some r
          | none => matchForTail g1 none s4))))

/-- Model of `re.search` with the event pattern: try each start position
from the left, with full backtracking at each. -/
def reSearchAdd : List Char → Option ReGroups
  | [] => matchAdd []
  | c :: rest =>
    match matchAdd (c :: rest) with
    | some r => some r
    | none => reSearchAdd rest

/-- Python `str.strip()` on ASCII whitespace. -/
def pyStrip (s : String) : String :=
  String.mk (((s.data.dropWhile isWs).reverse.dropWhile isWs).reverse)

/-- The event dict returned by `parse_event`: all five fields present. -/
structure ParsedEvent where
  date : Date
  weekday : String
  name : String
  activity : String
  time : String
deriving DecidableEq, Repr

/-- Date phrase extracted from the captures (defaults to "today" when the
`on` clause is absent). -/
def datePhraseOf (g : ReGroups) : String :=
  match g.g2 with
  | some d => pyStrip (String.mk d)
  | none => "today"

/-- Time extracted from the captures (defaults to "" when the `at` clause is
absent). -/
def timeOf (g : ReGroups) : String :=
  match g.g4 with
  | some t => pyStrip (String.mk t)
  | none => ""

/-- Model of `parse_event` (app.py lines 136-150), parameterized by the
ambient natural-language date resolver (`dateparser.parse(...).date()`):
match the grammar, resolve the date phrase, derive the weekday from the
resolved date; any grammar mismatch or unresolved date yields `none`. -/
def parse_event (resolve : String → Option Date) (text : String) :
    Option ParsedEvent :=
  match reSearchAdd text.data with
  | none => none
  | some g =>
    let activity := pyStrip (String.mk g.g1)
    let datePhrase := datePhraseOf g
    let name := pyStrip (String.mk g.g3)
    let time := timeOf g
    match resolve datePhrase with
    | none => none
    | some date => some ⟨date, weekdayName date, name, activity, time⟩

/-- Python `str()` of one cell value as interpolated into the delete label
(nulls of the sanitized frame render as "NaT" in the Date column and "nan"
elsewhere; a date object renders as its ISO string). -/
def pyStrCell (nullRepr : String) : Cell → String
  | Cell.na => nullRepr
  | Cell.str s => s
  | Cell.date d => toISO d

/-- Label built for one row of the sanitized frame (app.py lines 279-281):
`f"{Date} | {Weekday} | {Name} - {Activity} @ {Time}"`, the row given in
canonical column order. -/
def renderLabel (row : List Cell) : String :=
  pyStrCell "NaT" (row.getD 0 Cell.na) ++ " | " ++
    pyStrCell "nan" (row.getD 1 Cell.na) ++ " | " ++
    pyStrCell "nan" (row.getD 2 Cell.na) ++ " - " ++
    pyStrCell "nan" (row.getD 3 Cell.na) ++ " @ " ++
    pyStrCell "nan" (row.getD 4 Cell.na)

/-- Model of the delete workflow's row filter (app.py line 291): keep
exactly the rows of the freshly fetched table whose rendered label differs
from the selected label. -/
def deleteByLabel (rows : List (List Cell)) (lbl : String) : List (List Cell) :=
  rows.filter (fun r => !(renderLabel r == lbl))

/-- Date-column cell of a canonical table: null or a (valid) date object. -/
def goodDateCell : Cell → Bool
  | Cell.na => true
  | Cell.date d => validDate d
  | Cell.str _ => false

/-- Text cell that survives a CSV round trip: null or a string that is not
one of `pd.read_csv`'s default NA sentinels (in particular not empty). -/
def goodTextCell : Cell → Bool
  | Cell.na => true
  | Cell.str s => !(naValues.contains s)
  | Cell.date _ => false

/-- Canonical five-column frame assembled from its column cell lists. -/
def mkCanon (dc wc nc ac tc : List Cell) (n : Nat) : RawTable :=
  ⟨[("Date", dc), ("Weekday", wc), ("Name", nc), ("Activity", ac), ("Time", tc)], n⟩

/-- Concrete resolver used to exercise `parse_event` on the spec's example
(2025-10-15 is a Wednesday). -/
def resolveWednesday : String → Option Date :=
  fun s => if s = "Wednesday" then some ⟨2025, 10, 15⟩ else none

/-- Resolver that never resolves, for exercising the failure path. -/
def resolveNone : String → Option Date := fun _ => none

/-- The csv fields of row `i` of a canonical frame, as `to_csv` renders
them (one string per canonical column). -/
def canonFieldRow (dc wc nc ac tc : List Cell) (i : Nat) : List String :=
  [cellToCsvField (dc.getD i Cell.na), cellToCsvField (wc.getD i Cell.na),
   cellToCsvField (nc.getD i Cell.na), cellToCsvField (ac.getD i Cell.na),
   cellToCsvField (tc.getD i Cell.na)]

/-- Table exhibiting the CSV round-trip failure: a canonical table holding
an empty-string Name cell. -/
def roundTripCounterTable : RawTable :=
  mkCanon [Cell.na] [Cell.na] [Cell.str ""] [Cell.na] [Cell.na] 1

/-- Null-or-date shape of a cell of the sanitized Date column. -/
def weekdayFromDateCell : Cell → Cell
  | Cell.date d => Cell.str (weekdayName d)
  | _ => Cell.na

theorem colOf_sanitize_none_date : colOf "Date" (sanitize_remote_df none) = [] := rfl

theorem colOf_sanitize_none_weekday : colOf "Weekday" (sanitize_remote_df none) = [] := rfl

theorem colOf_sanitize_date (df : RawTable) :
    colOf "Date" (sanitize_remote_df (some df)) = (sanitizedDates df).map dateCellOf := rfl

theorem colOf_sanitize_weekday (df : RawTable) :
    colOf "Weekday" (sanitize_remote_df (some df)) =
      (sanitizedDates df).map weekdayCellOf := rfl

theorem wd_na_iff_date_na (ds : List (Option Date)) (i : Nat) :
    (ds.map dateCellOf).getD i Cell.na = Cell.na ↔
      (ds.map weekdayCellOf).getD i Cell.na = Cell.na := by
  induction ds generalizing i with
  | nil => simp
  | cons o t ih =>
    cases i with
    | zero => cases o <;> simp [dateCellOf, weekdayCellOf]
    | succ j => simpa using ih j

/-- C2: for every input table (arbitrary columns, including index-artifact
"unnamed" columns, or a null table), `sanitize_remote_df` returns a table
with exactly the five canonical columns in canonical order, and every cell
of its Date column is null or a date — malformed cells became null, and no
exception is modelled (the function is total). -/
theorem sanitize_canonical_columns (odf : Option RawTable) :
    (sanitize_remote_df odf).cols.map Prod.fst = COLUMNS ∧
    ∀ c ∈ colOf "Date" (sanitize_remote_df odf),
      c = Cell.na ∨ ∃ d, c = Cell.date d := by
  cases odf with
  | none =>
    refine ⟨rfl, ?_⟩
    rw [colOf_sanitize_none_date]
    intro c hc
    simp at hc
  | some df =>
    refine ⟨rfl, ?_⟩
    rw [colOf_sanitize_date]
    intro c hc
    rw [List.mem_map] at hc
    obtain ⟨o, -, rfl⟩ := hc
    cases o with
    | none => exact Or.inl rfl
    | some d => exact Or.inr ⟨d, rfl⟩

/-- C3: in every sanitized table, the Weekday column is exactly the English
weekday name of the parsed Date column, cell by cell (whatever Weekday was
stored in the input), and a Weekday cell is null iff the Date cell is. -/
theorem sanitize_weekday_recomputed (odf : Option RawTable) :
    colOf "Weekday" (sanitize_remote_df odf) =
      (colOf "Date" (sanitize_remote_df odf)).map weekdayFromDateCell ∧
    ∀ i, ((colOf "Date" (sanitize_remote_df odf)).getD i Cell.na = Cell.na ↔
          (colOf "Weekday" (sanitize_remote_df odf)).getD i Cell.na = Cell.na) := by
  cases odf with
  | none =>
    refine ⟨?_, fun i => ?_⟩
    · rw [colOf_sanitize_none_weekday, colOf_sanitize_none_date]
      rfl
    · rw [colOf_sanitize_none_weekday, colOf_sanitize_none_date]
  | some df =>
    refine ⟨?_, fun i => ?_⟩
    · rw [colOf_sanitize_weekday, colOf_sanitize_date, List.map_map]
      exact List.map_congr_left (fun o _ => by cases o <;> rfl)
    · rw [colOf_sanitize_weekday, colOf_sanitize_date]
      exact wd_na_iff_date_na _ i

/-- C4: `expand_recurring_events` returns exactly `repeat_count` rows for
every mode, and row `i` carries date `d + i` days for "Daily", `d + i` weeks
for "Weekly", and `d` itself for "None", with each row's weekday computed
from that row's own date and the name/activity/time fields copied. -/
theorem expand_recurring_events_rows (d : Date) (n a t : String) (cnt : Nat) :
    (∀ mode, (expand_recurring_events d n a t mode cnt).length = cnt) ∧
    (∀ i, i < cnt →
      (expand_recurring_events d n a t "Daily" cnt).getD i [] =
        [Cell.date (addDays d i), Cell.str (weekdayName (addDays d i)),
         Cell.str n, Cell.str a, Cell.str t] ∧
      (expand_recurring_events d n a t "Weekly" cnt).getD i [] =
        [Cell.date (addDays d (7 * i)), Cell.str (weekdayName (addDays d (7 * i))),
         Cell.str n, Cell.str a, Cell.str t] ∧
      (expand_recurring_events d n a t "None" cnt).getD i [] =
        [Cell.date d, Cell.str (weekdayName d),
         Cell.str n, Cell.str a, Cell.str t]) := by
  constructor
  · intro mode
    simp [expand_recurring_events]
  · intro i hi
    refine ⟨?_, ?_, ?_⟩ <;>
      simp [expand_recurring_events, List.getD_eq_getElem?_getD, List.getElem?_map,
        List.getElem?_range, hi]

/-- C7: with no credential configured, the write operation returns the
distinct "Missing token" failure triple `(False, None, "Missing token")`
without re-fetching the sha and without issuing any PUT — the remote store
is untouched. -/
theorem update_refuses_without_token (store : Store) (df : RawTable) (message : String) :
    update_schedule_on_github store df none message =
      ⟨⟨false, none, "Missing token"⟩, false, none⟩ := rfl

/-- C1: with a truthy credential, the write operation always re-fetches the
sha (`get_github_sha`) against the store state current at write time, and
the PUT payload carries exactly that freshly fetched sha (the function takes
no caller-supplied sha at all); the `sha` key is present in the payload iff
the re-fetch returned a (truthy) token, so a first write to a nonexistent
blob omits it. -/
theorem update_uses_fresh_sha (store : Store) (df : RawTable)
    (token : Option String) (message : String) (h : optTruthy token = true) :
    (update_schedule_on_github store df token message).shaRefetched = true ∧
    (update_schedule_on_github store df token message).putRequest =
      some ⟨message, encodeContent (serializeCsv df),
        if optTruthy (get_github_sha token store) then get_github_sha token store
        else none⟩ ∧
    (if optTruthy (get_github_sha token store) then get_github_sha token store
     else none).isSome = optTruthy (get_github_sha token store) := by
  unfold update_schedule_on_github
  rw [h]
  refine ⟨rfl, rfl, ?_⟩
  cases hs : optTruthy (get_github_sha token store) with
  | false => simp [hs]
  | true =>
    cases hg : get_github_sha token store with
    | none => rw [hg] at hs; simp [optTruthy] at hs
    | some s => simp [hs]

theorem update_uses_fresh_sha_holds :
    (update_schedule_on_github ⟨200, some "S2", "", 201, "ok"⟩ emptyCanonicalDf
        (some "tok") "m").putRequest =
      some ⟨"m", encodeContent (serializeCsv emptyCanonicalDf), some "S2"⟩ := by
  have h := (update_uses_fresh_sha ⟨200, some "S2", "", 201, "ok"⟩ emptyCanonicalDf
    (some "tok") "m" (by decide)).2.1
  exact h.trans (by rfl)

/-- C6: `fetch_remote_csv_via_api` returns `(None, None)` exactly when the
GET fails (status ≠ 200); on a 200 response whose payload cannot be
base64/UTF-8 decoded or parsed as CSV it returns the empty canonical table
paired with the fetched sha — never a crash, never a stale table. -/
theorem fetch_failure_semantics (token : Option String) (store : Store) :
    (fetch_remote_csv_via_api token store = (none, none) ↔ store.getStatus ≠ 200) ∧
    (store.getStatus = 200 →
      (decodeContent64 store.content).bind parseCsvString = none →
      fetch_remote_csv_via_api token store = (some emptyCanonicalDf, store.sha)) := by
  unfold fetch_remote_csv_via_api
  by_cases hs : store.getStatus = 200
  · rw [if_pos hs]
    refine ⟨by simp [hs], ?_⟩
    intro _ hdec
    rw [hdec]
  · rw [if_neg hs]
    exact ⟨by simp [hs], fun h => absurd h hs⟩

theorem fetch_failure_semantics_holds :
    fetch_remote_csv_via_api (some "t") ⟨200, some "s1", "", 500, "e"⟩ =
      (some emptyCanonicalDf, some "s1") :=
  (fetch_failure_semantics (some "t") ⟨200, some "s1", "", 500, "e"⟩).2 rfl (by decide)

/-- C10: the delete workflow's filter removes from the fetched table every
row whose rendered label equals the selected label (all duplicates at once),
and keeps every other row unchanged and in original order (the result is a
sublist, and equals the label-mismatch filter of the input). -/
theorem delete_filters_by_label (rows : List (List Cell)) (lbl : String) :
    (∀ r ∈ deleteByLabel rows lbl, renderLabel r ≠ lbl) ∧
    List.Sublist (deleteByLabel rows lbl) rows ∧
    (∀ r ∈ rows, renderLabel r ≠ lbl → r ∈ deleteByLabel rows lbl) ∧
    deleteByLabel rows lbl = rows.filter (fun r => !(renderLabel r == lbl)) := by
  refine ⟨?_, List.filter_sublist _, ?_, rfl⟩
  · intro r hr he
    rw [deleteByLabel, List.mem_filter] at hr
    rw [he] at hr
    simp at hr
  · intro r hr hne
    rw [deleteByLabel, List.mem_filter]
    exact ⟨hr, by simp [hne]⟩

theorem delete_filters_by_label_holds :
    [Cell.na, Cell.na, Cell.str "Bob", Cell.str "gym", Cell.str "9"] ∈
      deleteByLabel
        [[Cell.date ⟨2024, 1, 5⟩, Cell.str "Friday", Cell.str "Al", Cell.str "run", Cell.str "8"],
         [Cell.na, Cell.na, Cell.str "Bob", Cell.str "gym", Cell.str "9"]]
        (renderLabel [Cell.date ⟨2024, 1, 5⟩, Cell.str "Friday", Cell.str "Al", Cell.str "run", Cell.str "8"]) :=
  (delete_filters_by_label _ _).2.2.1 _ (by decide) (by decide)

/-- C8: on any text matched by the (case-insensitive) grammar
`add <activity> [on <date-phrase>] for <name> [at <time-phrase>]` whose date
phrase (defaulting to "today") the resolver resolves, `parse_event` returns
the record with the stripped activity and name, the resolved date, the
weekday derived from that date, and the time phrase (defaulting to ""). -/
theorem parse_event_grammar (resolve : String → Option Date) (text : String)
    (g : ReGroups) (d : Date) (h1 : reSearchAdd text.data = some g)
    (h2 : resolve (datePhraseOf g) = some d) :
    parse_event resolve text =
      some ⟨d, weekdayName d, pyStrip (String.mk g.g3),
            pyStrip (String.mk g.g1), timeOf g⟩ := by
  unfold parse_event
  rw [h1]
  simp only [h2]

theorem parse_event_grammar_holds :
    parse_event resolveWednesday "Add gym on Wednesday for Vinoth" =
      some ⟨⟨2025, 10, 15⟩, "Wednesday", "Vinoth", "gym", ""⟩ := by
  have h := parse_event_grammar resolveWednesday "Add gym on Wednesday for Vinoth"
    ⟨"gym".data, some "Wednesday".data, "Vinoth".data, none⟩ ⟨2025, 10, 15⟩
    (by decide) (by decide)
  exact h.trans (by decide)

/-- C9: `parse_event` returns null whenever the text does not match the
grammar or the extracted date phrase does not resolve, and on the spec's
example "walk the dog" (no "for" clause) it returns null for every resolver;
the model is a total function, so no exception escapes. -/
theorem parse_event_failure_null (resolve : String → Option Date) (text : String) :
    (reSearchAdd text.data = none → parse_event resolve text = none) ∧
    (∀ g, reSearchAdd text.data = some g → resolve (datePhraseOf g) = none →
      parse_event resolve text = none) ∧
    parse_event resolve "walk the dog" = none := by
  refine ⟨fun h => ?_, fun g hg hr => ?_, rfl⟩
  · unfold parse_event
    rw [h]
  · unfold parse_event
    rw [hg]
    simp only [hr]

theorem parse_event_failure_null_holds :
    parse_event resolveWednesday "hello world" = none ∧
    parse_event resolveNone "add x for y" = none :=
  ⟨(parse_event_failure_null resolveWednesday "hello world").1 (by decide),
   (parse_event_failure_null resolveNone "add x for y").2.1
     ⟨"x".data, none, "y".data, none⟩ (by decide) (by decide)⟩

/-- C5 counterexample: the round trip `normalize ∘ parseCsv ∘ serializeCsv`
is not the identity composed with `normalize` on every canonical table: a
canonical table holding an empty-string Name cell serializes to an empty CSV
field, which reads back as null, and likewise a Name cell "NA" reads back as
null through `pd.read_csv`'s default NA sentinels; `sanitize_remote_df`
passes text cells through, so in both cases the two sides differ. -/
theorem csv_roundtrip_fails_on_empty_text :
    (sanitize_remote_df (parseCsvString (serializeCsv roundTripCounterTable)) ≠
      sanitize_remote_df (some roundTripCounterTable)) ∧
    (sanitize_remote_df (parseCsvString (serializeCsv
        (mkCanon [Cell.na] [Cell.na] [Cell.str "NA"] [Cell.na] [Cell.na] 1))) ≠
      sanitize_remote_df (some
        (mkCanon [Cell.na] [Cell.na] [Cell.str "NA"] [Cell.na] [Cell.na] 1))) := by
  constructor <;> decide

theorem splitCharList_ne_nil (sep : Char) (xs : List Char) : splitCharList sep xs ≠ [] := by
  induction xs with
  | nil => simp [splitCharList]
  | cons c rest ih =>
    simp only [splitCharList]
    cases h : splitCharList sep rest with
    | nil => exact absurd h ih
    | cons a t => by_cases hc : c = sep <;> simp [hc]

theorem splitCharList_no_sep (sep : Char) (xs : List Char) (h : ∀ c ∈ xs, c ≠ sep) :
    splitCharList sep xs = [xs] := by
  induction xs with
  | nil => rfl
  | cons c rest ih =>
    simp only [splitCharList]
    rw [ih (fun a ha => h a (List.mem_cons_of_mem _ ha))]
    simp [h c (List.mem_cons_self _ _)]

theorem splitCharList_append (sep : Char) (xs ys : List Char)
    (h : ∀ c ∈ xs, c ≠ sep) :
    splitCharList sep (xs ++ sep :: ys) = xs :: splitCharList sep ys := by
  induction xs with
  | nil =>
    simp only [List.nil_append, splitCharList]
    cases hs : splitCharList sep ys with
    | nil => exact absurd hs (splitCharList_ne_nil sep ys)
    | cons a t => simp
  | cons c rest ih =>
    simp only [List.cons_append, splitCharList, List.append_eq]
    rw [ih (fun a ha => h a (List.mem_cons_of_mem _ ha))]
    simp [h c (List.mem_cons_self _ _)]

theorem digitChar_toNat (k : Nat) (h : k < 10) : (digitChar k).toNat = 48 + k := by
  interval_cases k <;> rfl

theorem digitChar_isDigit (k : Nat) (h : k < 10) : (digitChar k).isDigit = true := by
  interval_cases k <;> rfl

theorem digitChar_ne_dash (k : Nat) (h : k < 10) : digitChar k ≠ '-' := by
  interval_cases k <;> decide

theorem digitsVal_pad4 (n : Nat) (h : n < 10000) : digitsVal (pad4 n) = some n := by
  have h1 := digitChar_toNat (n / 1000 % 10) (Nat.mod_lt _ (by norm_num))
  have h2 := digitChar_toNat (n / 100 % 10) (Nat.mod_lt _ (by norm_num))
  have h3 := digitChar_toNat (n / 10 % 10) (Nat.mod_lt _ (by norm_num))
  have h4 := digitChar_toNat (n % 10) (Nat.mod_lt _ (by norm_num))
  unfold digitsVal
  rw [if_pos]
  · simp only [List.foldl, pad4, h1, h2, h3, h4]
    congr 1
    omega
  · refine ⟨by simp [pad4], ?_⟩
    simp [pad4, List.all_cons, digitChar_isDigit _ (Nat.mod_lt _ (by norm_num))]

theorem digitsVal_pad2 (n : Nat) (h : n < 100) : digitsVal (pad2 n) = some n := by
  have h1 := digitChar_toNat (n / 10 % 10) (Nat.mod_lt _ (by norm_num))
  have h4 := digitChar_toNat (n % 10) (Nat.mod_lt _ (by norm_num))
  unfold digitsVal
  rw [if_pos]
  · simp only [List.foldl, pad2, h1, h4]
    congr 1
    omega
  · refine ⟨by simp [pad2], ?_⟩
    simp [pad2, List.all_cons, digitChar_isDigit _ (Nat.mod_lt _ (by norm_num))]

theorem pad4_ne_dash (n : Nat) : ∀ c ∈ pad4 n, c ≠ '-' := by
  intro c hc
  simp only [pad4, List.mem_cons, List.not_mem_nil, or_false] at hc
  rcases hc with rfl | rfl | rfl | rfl <;>
    exact digitChar_ne_dash _ (Nat.mod_lt _ (by norm_num))

theorem pad2_ne_dash (n : Nat) : ∀ c ∈ pad2 n, c ≠ '-' := by
  intro c hc
  simp only [pad2, List.mem_cons, List.not_mem_nil, or_false] at hc
  rcases hc with rfl | rfl <;>
    exact digitChar_ne_dash _ (Nat.mod_lt _ (by norm_num))

theorem daysInMonth_le_31 (y m : Nat) : daysInMonth y m ≤ 31 := by
  unfold daysInMonth
  split
  · split <;> omega
  · split <;> omega

theorem toISO_ne_empty (d : Date) : toISO d ≠ "" := by
  intro h
  simpa [toISO, pad4] using congrArg String.data h

theorem naValues_data_short : ∀ s ∈ naValues, s.data.length < 10 := by decide

theorem toISO_not_na (d : Date) : ¬(toISO d ∈ naValues) := by
  intro hmem
  have h1 : (toISO d).data.length = 10 := by simp [toISO, pad4, pad2]
  have h2 := naValues_data_short _ hmem
  omega

theorem parseISO_toISO (d : Date) (h : validDate d = true) :
    parseISO (toISO d) = some d := by
  obtain ⟨y, m, dd⟩ := d
  have hb := h
  unfold validDate at hb
  simp only [Bool.and_eq_true, decide_eq_true_eq] at hb
  obtain ⟨⟨⟨⟨⟨-, hy⟩, -⟩, hm⟩, -⟩, hd⟩ := hb
  have hdd : dd < 100 := lt_of_le_of_lt (hd.trans (daysInMonth_le_31 y m)) (by norm_num)
  unfold parseISO toISO
  show (match splitCharList '-' (pad4 y ++ '-' :: (pad2 m ++ '-' :: pad2 dd)) with
    | [ys, ms, ds] => _ | _ => none) = some ⟨y, m, dd⟩
  rw [splitCharList_append '-' _ _ (pad4_ne_dash y),
    splitCharList_append '-' _ _ (pad2_ne_dash m),
    splitCharList_no_sep '-' _ (pad2_ne_dash dd)]
  simp only [digitsVal_pad4 y (by omega), digitsVal_pad2 m (by omega),
    digitsVal_pad2 dd hdd]
  rw [if_pos h]

theorem splitTopAux_plain (d : Char) (cs : List Char)
    (h : ∀ c ∈ cs, c ≠ d ∧ c ≠ '"') :
    ∀ (rest acc : List Char),
      splitTopAux d (cs ++ rest) false acc =
        splitTopAux d rest false (cs.reverse ++ acc) := by
  induction cs with
  | nil => intro rest acc; simp
  | cons c cs2 ih =>
    intro rest acc
    obtain ⟨hd, hq⟩ := h c (List.mem_cons_self _ _)
    simp only [List.cons_append, splitTopAux, hd, hq, false_and, and_false,
      if_false, ite_false, if_neg, not_false_eq_true, List.append_eq]
    rw [ih (fun a ha => h a (List.mem_cons_of_mem _ ha))]
    simp [List.append_assoc]

theorem splitTopAux_quoted (d : Char) (hd : d ≠ '"') (f : List Char) :
    ∀ (rest acc : List Char),
      splitTopAux d (escQ f ++ '"' :: rest) true acc =
        splitTopAux d rest false ('"' :: ((escQ f).reverse ++ acc)) := by
  induction f with
  | nil =>
    intro rest acc
    simp [escQ, splitTopAux]
  | cons c fs ih =>
    intro rest acc
    have hd2 : ¬('"' = d) := fun hp => hd hp.symm
    by_cases hc : c = '"'
    · subst hc
      simp only [escQ, if_pos rfl, List.cons_append, splitTopAux, List.append_eq]
      simp [hd2, ih, List.append_assoc]
    · simp only [escQ, if_neg hc, List.cons_append, splitTopAux, List.append_eq]
      simp [hc, ih, List.append_assoc]

theorem splitTopAux_field (d : Char) (hd : d = ',' ∨ d = '\n') (f : List Char) :
    ∀ (rest acc : List Char),
      splitTopAux d (renderFieldChars f ++ rest) false acc =
        splitTopAux d rest false ((renderFieldChars f).reverse ++ acc) := by
  intro rest acc
  have hdq : d ≠ '"' := by rcases hd with rfl | rfl <;> decide
  by_cases hq : needsQuote f
  · simp only [renderFieldChars, if_pos hq, List.cons_append, splitTopAux]
    have hd3 : ¬('"' = d) := fun hp => hdq hp.symm
    simp only [hd3, false_and, if_false, ite_false, ite_true, if_true,
      Bool.not_false, List.append_assoc, List.singleton_append]
    rw [splitTopAux_quoted d hdq f]
    simp [List.append_assoc]
  · have hq2 : ∀ x ∈ f, ((¬x = ',' ∧ ¬x = '"') ∧ ¬x = '\n') ∧ ¬x = '\r' := by
      simpa [needsQuote] using hq
    have hnone : ∀ c ∈ f, c ≠ d ∧ c ≠ '"' := by
      intro c hc
      obtain ⟨⟨⟨h1, h2⟩, h3⟩, h4⟩ := hq2 c hc
      exact ⟨by rcases hd with rfl | rfl <;> assumption, h2⟩
    simp only [renderFieldChars, if_neg hq]
    exact splitTopAux_plain d f hnone rest acc

theorem splitTopAux_delim (d : Char) (rest acc : List Char) :
    splitTopAux d (d :: rest) false acc = acc.reverse :: splitTopAux d rest false [] := by
  simp [splitTopAux]

theorem splitTopAux_row (f : List Char) (fs : List (List Char)) (acc : List Char) :
    splitTopAux ',' (renderRowChars (f :: fs)) false acc =
      (acc.reverse ++ renderFieldChars f) :: fs.map renderFieldChars := by
  induction fs generalizing f acc with
  | nil =>
    show splitTopAux ',' (renderFieldChars f) false acc = _
    rw [← List.append_nil (renderFieldChars f), splitTopAux_field ',' (Or.inl rfl) f]
    simp [splitTopAux]
  | cons g fs2 ih =>
    show splitTopAux ',' (renderFieldChars f ++ ',' :: renderRowChars (g :: fs2)) false acc = _
    rw [splitTopAux_field ',' (Or.inl rfl) f, splitTopAux_delim, ih g []]
    simp

theorem splitTop_row (f : List Char) (fs : List (List Char)) :
    splitTop ',' (renderRowChars (f :: fs)) = (f :: fs).map renderFieldChars := by
  unfold splitTop
  rw [splitTopAux_row]
  simp

theorem splitTopAux_rowSafe (fs : List (List Char)) :
    ∀ (rest acc : List Char),
      splitTopAux '\n' (renderRowChars fs ++ rest) false acc =
        splitTopAux '\n' rest false ((renderRowChars fs).reverse ++ acc) := by
  induction fs with
  | nil => intro rest acc; simp [renderRowChars]
  | cons f fs2 ih =>
    intro rest acc
    cases fs2 with
    | nil => simpa [renderRowChars] using splitTopAux_field '\n' (Or.inr rfl) f rest acc
    | cons g fs3 =>
      show splitTopAux '\n' ((renderFieldChars f ++ ',' :: renderRowChars (g :: fs3)) ++ rest)
          false acc = _
      rw [List.append_assoc, splitTopAux_field '\n' (Or.inr rfl) f]
      simp only [List.cons_append, splitTopAux]
      rw [if_neg (fun hp => by exact absurd hp.1 (by decide)), if_neg (by decide)]
      rw [show (renderRowChars (g :: fs3)).append rest =
        renderRowChars (g :: fs3) ++ rest from rfl]
      rw [ih]
      simp [renderRowChars, List.reverse_append, List.append_assoc]

theorem splitTop_table (rows : List (List (List Char))) :
    splitTop '\n' (renderTableChars rows) = (rows.map renderRowChars) ++ [[]] := by
  induction rows with
  | nil => rfl
  | cons r rows2 ih =>
    show splitTop '\n' ((renderRowChars r ++ ['\n']) ++ renderTableChars rows2) = _
    unfold splitTop
    rw [List.append_assoc, splitTopAux_rowSafe, List.singleton_append, splitTopAux_delim]
    rw [show splitTopAux '\n' (renderTableChars rows2) false [] =
        splitTop '\n' (renderTableChars rows2) from rfl, ih]
    simp

theorem unquoteInner_escQ (f : List Char) : unquoteInner (escQ f ++ ['"']) = some f := by
  induction f with
  | nil => rfl
  | cons c fs ih =>
    by_cases hc : c = '"'
    · subst hc
      simp [escQ, unquoteInner, ih]
    · rw [show escQ (c :: fs) = c :: escQ fs by simp [escQ, hc], List.cons_append,
        unquoteInner.eq_def]
      simp [hc, ih]

theorem unquoteField_renderField (f : List Char) :
    unquoteField (renderFieldChars f) = some (String.mk f) := by
  by_cases hq : needsQuote f
  · simp only [renderFieldChars, if_pos hq, List.cons_append, unquoteField, if_pos rfl]
    rw [unquoteInner_escQ]
    rfl
  · have hq2 : ∀ x ∈ f, ((¬x = ',' ∧ ¬x = '"') ∧ ¬x = '\n') ∧ ¬x = '\r' := by
      simpa [needsQuote] using hq
    simp only [renderFieldChars, if_neg hq]
    cases f with
    | nil => rfl
    | cons c fs =>
      have hcq : ¬(c = '"') := (hq2 c (List.mem_cons_self _ _)).1.1.2
      have hcont : ((c :: fs).contains '"') = false := by
        cases hb : (c :: fs).contains '"' with
        | false => rfl
        | true =>
          obtain ⟨a, ha, hbeq⟩ := List.contains_iff_exists_mem_beq.1 hb
          exact absurd ((by simpa using hbeq : '"' = a).symm) ((hq2 a ha).1.1.2)
      simp only [unquoteField, if_neg hcq, hcont, Bool.false_eq_true, if_false, ite_false]

theorem mapM_map_eq_some {α β γ : Type} (g : α → β) (f : β → Option γ) (k : α → γ) :
    ∀ (l : List α), (∀ x ∈ l, f (g x) = some (k x)) →
      (l.map g).mapM f = some (l.map k) := by
  intro l
  induction l with
  | nil => intro _; rfl
  | cons a t ih =>
    intro h
    rw [List.map_cons, List.mapM_cons, h a (List.mem_cons_self _ _),
      ih (fun x hx => h x (List.mem_cons_of_mem _ hx))]
    rfl

theorem getD_map_lt {α β : Type} (f : α → β) (l : List α) (i : Nat)
    (h : i < l.length) (d1 : β) (d2 : α) :
    (l.map f).getD i d1 = f (l.getD i d2) := by
  rw [List.getD_eq_getElem?_getD, List.getElem?_map,
    List.getD_eq_getElem?_getD, List.getElem?_eq_getElem h]
  rfl

theorem getD_mem {α : Type} (l : List α) (i : Nat) (h : i < l.length) (d : α) :
    l.getD i d ∈ l := by
  rw [List.getD_eq_getElem?_getD, List.getElem?_eq_getElem h]
  exact List.getElem_mem h

theorem range_map_getD {α β : Type} (l : List α) (d : α) (g : α → β) :
    (List.range l.length).map (fun i => g (l.getD i d)) = l.map g := by
  induction l with
  | nil => rfl
  | cons a t ih =>
    rw [List.length_cons, List.range_succ_eq_map, List.map_cons, List.map_map,
      List.getD_cons_zero, List.map_cons]
    congr 1

theorem dateCell_roundtrip (c : Cell) (h : goodDateCell c = true) :
    parseDateCell (toCell (cellToCsvField (uploadDateCell c))) = parseDateCell c := by
  cases c with
  | na => rfl
  | str s => simp [goodDateCell] at h
  | date d =>
    have hv : validDate d = true := by simpa [goodDateCell] using h
    show parseDateCell (toCell (toISO d)) = some d
    rw [show toCell (toISO d) = Cell.str (toISO d) from
      by simp [toCell, toISO_not_na d]]
    show parseISO (toISO d) = some d
    exact parseISO_toISO d hv

theorem textCell_roundtrip (c : Cell) (h : goodTextCell c = true) :
    toCell (cellToCsvField c) = c := by
  cases c with
  | na => rfl
  | date d => simp [goodTextCell] at h
  | str s =>
    have hc : naValues.contains s = false := by simpa [goodTextCell] using h
    have hs : ¬(s ∈ naValues) := by
      intro he
      have ht : naValues.contains s = true :=
        List.contains_iff_exists_mem_beq.2 ⟨s, he, by simp⟩
      rw [hc] at ht
      simp at ht
    simp [cellToCsvField, toCell, hs]

theorem renderRowChars_cons2_ne_nil (a b : List Char) (rest : List (List Char)) :
    renderRowChars (a :: b :: rest) ≠ [] := by
  show renderFieldChars a ++ ',' :: renderRowChars (b :: rest) ≠ []
  simp

theorem uploadTransform_mkCanon (dc wc nc ac tc : List Cell) (n : Nat) :
    uploadTransform (mkCanon dc wc nc ac tc n) =
      mkCanon (dc.map uploadDateCell) wc nc ac tc n := rfl

theorem dfRecords_mkCanon (dc wc nc ac tc : List Cell) (n : Nat) :
    dfRecords (mkCanon dc wc nc ac tc n) =
      COLUMNS :: (List.range n).map (fun i =>
        [cellToCsvField (dc.getD i Cell.na), cellToCsvField (wc.getD i Cell.na),
         cellToCsvField (nc.getD i Cell.na), cellToCsvField (ac.getD i Cell.na),
         cellToCsvField (tc.getD i Cell.na)]) := rfl

theorem sanitize_mkCanon (dc wc nc ac tc : List Cell) (n : Nat) :
    sanitize_remote_df (some (mkCanon dc wc nc ac tc n)) =
      mkCanon ((dc.map parseDateCell).map dateCellOf)
        ((dc.map parseDateCell).map weekdayCellOf) nc ac tc n := rfl

theorem row_mapM_unquote (s : String) (rs : List String) :
    (splitTop ',' (renderRowChars ((s :: rs).map String.data))).mapM unquoteField =
      some (s :: rs) := by
  rw [show (s :: rs).map String.data = s.data :: rs.map String.data from rfl,
    splitTop_row]
  rw [show s.data :: List.map String.data rs = (s :: rs).map String.data from rfl,
    List.map_map]
  have h := mapM_map_eq_some (fun x => renderFieldChars x.data) unquoteField
    (fun x => x) (s :: rs)
    (fun x _ => (show unquoteField (renderFieldChars x.data) = some x from
      unquoteField_renderField x.data))
  simpa [Function.comp] using h

theorem parseCsvString_eval (s : String) (hdr : List Char)
    (dataRows : List (List Char)) (hfs : List String) (rfs : List (List String))
    (hsplit : (splitTop '\n' s.data).filter (fun r => r ≠ []) = hdr :: dataRows)
    (hhdr : (splitTop ',' hdr).mapM unquoteField = some hfs)
    (hdata : dataRows.mapM (fun r => (splitTop ',' r).mapM unquoteField) = some rfs)
    (hlen : rfs.all (fun r => r.length ≤ hfs.length) = true) :
    parseCsvString s =
      some ⟨hfs.enum.map (fun ji =>
        (ji.2, rfs.map (fun r => toCell (r.getD ji.1 "")))), rfs.length⟩ := by
  simp only [parseCsvString, hsplit, hhdr, hdata, hlen, if_true, ite_true]

theorem parse_serialize_canonical (dc wc nc ac tc : List Cell) (n : Nat) :
    parseCsvString (serializeCsv (mkCanon dc wc nc ac tc n)) =
      some ⟨[("Date", (List.range n).map (fun i =>
                toCell (cellToCsvField ((dc.map uploadDateCell).getD i Cell.na)))),
             ("Weekday", (List.range n).map (fun i =>
                toCell (cellToCsvField (wc.getD i Cell.na)))),
             ("Name", (List.range n).map (fun i =>
                toCell (cellToCsvField (nc.getD i Cell.na)))),
             ("Activity", (List.range n).map (fun i =>
                toCell (cellToCsvField (ac.getD i Cell.na)))),
             ("Time", (List.range n).map (fun i =>
                toCell (cellToCsvField (tc.getD i Cell.na))))], n⟩ := by
  have e0 : (serializeCsv (mkCanon dc wc nc ac tc n)).data =
      renderTableChars ((COLUMNS :: (List.range n).map
        (canonFieldRow (dc.map uploadDateCell) wc nc ac tc)).map
          (fun r => r.map String.data)) := rfl
  have hsplit : (splitTop '\n' (serializeCsv (mkCanon dc wc nc ac tc n)).data).filter
      (fun r => r ≠ []) =
      renderRowChars (COLUMNS.map String.data) ::
        (((List.range n).map (canonFieldRow (dc.map uploadDateCell) wc nc ac tc)).map
          (fun r => r.map String.data)).map renderRowChars := by
    rw [e0, splitTop_table, List.map_cons, List.map_cons, List.cons_append]
    rw [List.filter_cons_of_pos]
    · rw [List.filter_append,
        show List.filter (fun r => r ≠ []) [([] : List Char)] = [] from rfl,
        List.append_nil]
      congr 1
      rw [List.filter_eq_self]
      intro r hr
      obtain ⟨r0, hr0, rfl⟩ := List.mem_map.1 hr
      obtain ⟨r1, hr1, rfl⟩ := List.mem_map.1 hr0
      obtain ⟨i, -, rfl⟩ := List.mem_map.1 hr1
      simp only [canonFieldRow, List.map_cons]
      simpa using renderRowChars_cons2_ne_nil _ _ _
    · simp only [COLUMNS, List.map_cons]
      simpa using renderRowChars_cons2_ne_nil _ _ _
  have hhdr : (splitTop ',' (renderRowChars (COLUMNS.map String.data))).mapM
      unquoteField = some COLUMNS :=
    row_mapM_unquote "Date" ["Weekday", "Name", "Activity", "Time"]
  have hdata : ((((List.range n).map
      (canonFieldRow (dc.map uploadDateCell) wc nc ac tc)).map
        (fun r => r.map String.data)).map renderRowChars).mapM
      (fun r => (splitTop ',' r).mapM unquoteField) =
      some ((List.range n).map (canonFieldRow (dc.map uploadDateCell) wc nc ac tc)) := by
    rw [List.map_map]
    have h := mapM_map_eq_some
      (fun i => renderRowChars ((canonFieldRow (dc.map uploadDateCell) wc nc ac tc i).map
        String.data))
      (fun r => (splitTop ',' r).mapM unquoteField)
      (canonFieldRow (dc.map uploadDateCell) wc nc ac tc)
      (List.range n)
      (fun i _ => row_mapM_unquote _ _)
    simpa [Function.comp] using h
  have hlen : ((List.range n).map
      (canonFieldRow (dc.map uploadDateCell) wc nc ac tc)).all
      (fun r => r.length ≤ COLUMNS.length) = true := by
    rw [List.all_eq_true]
    intro r hr
    obtain ⟨i, -, rfl⟩ := List.mem_map.1 hr
    simp [canonFieldRow, COLUMNS]
  rw [parseCsvString_eval _ _ _ COLUMNS _ hsplit hhdr hdata hlen]
  congr 1
  congr 1
  · rw [show COLUMNS.enum =
      [(0, "Date"), (1, "Weekday"), (2, "Name"), (3, "Activity"), (4, "Time")] from rfl]
    simp only [List.map_cons, List.map_nil, List.map_map]
    rfl
  · simp

theorem sanitize_five (d0 w0 n0 a0 t0 : List Cell) (n : Nat) :
    sanitize_remote_df (some ⟨[("Date", d0), ("Weekday", w0), ("Name", n0),
      ("Activity", a0), ("Time", t0)], n⟩) =
      ⟨[("Date", (d0.map parseDateCell).map dateCellOf),
        ("Weekday", (d0.map parseDateCell).map weekdayCellOf),
        ("Name", n0), ("Activity", a0), ("Time", t0)], n⟩ := rfl

/-- C5 amended: the round trip `normalize (parseCsv (serializeCsv T))` equals
`normalize T` for every canonical table whose text cells (Name, Activity,
Time) are each null or a string outside `pd.read_csv`'s default NA-sentinel
set (so in particular not "", "NA", "NaN", "null", ...) — date formatting is
lossless to day granularity; the restriction on text cells is forced by the
counterexample, since such cells serialize to fields that read back as null.
(The Date column holds null or valid date objects, as Python's date type
guarantees; an ISO date string is never an NA sentinel.  The Weekday column
needs no restriction because normalization recomputes it.) -/
theorem csv_roundtrip_amended (dc wc nc ac tc : List Cell) (n : Nat)
    (hdc : dc.length = n) (_hwc : wc.length = n) (hnc : nc.length = n)
    (hac : ac.length = n) (htc : tc.length = n)
    (hgd : ∀ c ∈ dc, goodDateCell c = true)
    (hgn : ∀ c ∈ nc, goodTextCell c = true)
    (hga : ∀ c ∈ ac, goodTextCell c = true)
    (hgt : ∀ c ∈ tc, goodTextCell c = true) :
    sanitize_remote_df (parseCsvString (serializeCsv (mkCanon dc wc nc ac tc n))) =
      sanitize_remote_df (some (mkCanon dc wc nc ac tc n)) := by
  have htext : ∀ (l : List Cell), l.length = n → (∀ c ∈ l, goodTextCell c = true) →
      (List.range n).map (fun i => toCell (cellToCsvField (l.getD i Cell.na))) = l := by
    intro l hl hg
    rw [← hl]
    conv_rhs => rw [← List.map_id l, ← range_map_getD l Cell.na id]
    apply List.map_congr_left
    intro i hi
    rw [List.mem_range] at hi
    show toCell (cellToCsvField (l.getD i Cell.na)) = id (l.getD i Cell.na)
    exact textCell_roundtrip _ (hg _ (getD_mem l i hi Cell.na))
  have hX0 : ((List.range n).map (fun i =>
      toCell (cellToCsvField ((dc.map uploadDateCell).getD i Cell.na)))).map
        parseDateCell = dc.map parseDateCell := by
    rw [List.map_map, ← hdc, ← range_map_getD dc Cell.na parseDateCell]
    apply List.map_congr_left
    intro i hi
    rw [List.mem_range] at hi
    show parseDateCell (toCell (cellToCsvField ((dc.map uploadDateCell).getD i Cell.na))) =
      parseDateCell (dc.getD i Cell.na)
    rw [getD_map_lt uploadDateCell dc i hi Cell.na Cell.na]
    exact dateCell_roundtrip _ (hgd _ (getD_mem dc i hi Cell.na))
  rw [parse_serialize_canonical, sanitize_five]
  simp only [mkCanon]
  rw [sanitize_five]
  rw [hX0, htext nc hnc hgn, htext ac hac hga, htext tc htc hgt]

theorem csv_roundtrip_amended_holds :
    sanitize_remote_df (parseCsvString (serializeCsv (mkCanon
        [Cell.date ⟨2024, 1, 5⟩, Cell.na] [Cell.str "Friday", Cell.na]
        [Cell.str "Bo,b", Cell.na] [Cell.str "gym", Cell.na]
        [Cell.str "9am", Cell.na] 2))) =
      sanitize_remote_df (some (mkCanon
        [Cell.date ⟨2024, 1, 5⟩, Cell.na] [Cell.str "Friday", Cell.na]
        [Cell.str "Bo,b", Cell.na] [Cell.str "gym", Cell.na]
        [Cell.str "9am", Cell.na] 2)) :=
  csv_roundtrip_amended _ _ _ _ _ 2 (by decide) (by decide) (by decide) (by decide)
    (by decide) (by decide) (by decide) (by decide) (by decide)

theorem sanitize_canonical_columns_holds :
    Cell.date ⟨2024, 1, 5⟩ = Cell.na ∨ ∃ d, Cell.date ⟨2024, 1, 5⟩ = Cell.date d :=
  (sanitize_canonical_columns
    (some (mkCanon [Cell.str "2024-01-05"] [] [] [] [] 1))).2 _ (by decide)

theorem expand_recurring_events_rows_holds :
    (expand_recurring_events ⟨2024, 2, 28⟩ "n" "a" "t" "Daily" 3).getD 1 [] =
      [Cell.date (addDays ⟨2024, 2, 28⟩ 1),
       Cell.str (weekdayName (addDays ⟨2024, 2, 28⟩ 1)),
       Cell.str "n", Cell.str "a", Cell.str "t"] ∧
    (expand_recurring_events ⟨2024, 2, 28⟩ "n" "a" "t" "Weekly" 3).getD 1 [] =
      [Cell.date (addDays ⟨2024, 2, 28⟩ (7 * 1)),
       Cell.str (weekdayName (addDays ⟨2024, 2, 28⟩ (7 * 1))),
       Cell.str "n", Cell.str "a", Cell.str "t"] ∧
    (expand_recurring_events ⟨2024, 2, 28⟩ "n" "a" "t" "None" 3).getD 1 [] =
      [Cell.date ⟨2024, 2, 28⟩, Cell.str (weekdayName ⟨2024, 2, 28⟩),
       Cell.str "n", Cell.str "a", Cell.str "t"] :=
  (expand_recurring_events_rows ⟨2024, 2, 28⟩ "n" "a" "t" 3).2 1 (by decide)
